import Mathlib

/-!
# signalr: pending-invocation registry and SSE transport

Shallow embedding of `invokeclient.go` and `serversseconnection.go`.

Go channels are heap objects shared between goroutines.  They are modelled by
`Chan` values stored in a heap indexed by address; a channel keeps its buffer,
its closed flag, the queue of goroutines blocked in a send on it and the number
of goroutines that died on it with a runtime panic.  A goroutine started with
`go` runs at once up to its first blocking point.
-/

namespace Signalr

/-! ## Go values and channels -/

/-- A non-nil dynamic value (`interface{}`) carried by a completion. -/
inductive Dyn where
  | num (n : Int)
  | str (s : String)
  | bool (b : Bool)
deriving DecidableEq, Repr

/-- Go `error` values built in the two files. -/
inductive GoError where
  /-- Result of `errors.New(msg)`, and of `fmt.Errorf` without a wrapped error. -/
  | errorString (msg : String)
  /-- Result of `&hubChanTimeoutError{fmt.Sprintf(m, timeout)}`, where `m` is
  `"timeout (%v) waiting for hub to receive client sent "` followed by `what`. -/
  | hubChanTimeoutError (timeout : Nat) (what : String)
  /-- Result of `fmt.Errorf("serverSSEConnection canceled: %w", ctx.Err())`. -/
  | canceled
deriving DecidableEq, Repr

/-- What travels through a slot: `resultChan` carries `interface{}` (possibly
nil), `errChan` carries `error`. -/
inductive Payload where
  | value (v : Option Dyn)
  | error (e : GoError)
deriving DecidableEq, Repr

/-- A goroutine blocked in `ch <- val`; `thenClose` tells whether its next
statement is `close(ch)`. -/
structure Sender where
  val : Payload
  thenClose : Bool
deriving DecidableEq, Repr

/-- State of one Go channel. -/
structure Chan where
  /-- capacity given to `make` -/
  cap : Nat
  /-- buffered values, oldest first -/
  buf : List Payload
  closed : Bool
  /-- goroutines blocked sending, oldest first -/
  sendq : List Sender
  /-- goroutines that panicked on this channel: `send on closed channel`
  or `close of closed channel` -/
  panicked : Nat
deriving DecidableEq, Repr

namespace Chan

/-- Builtin `make(chan T, cap)`. -/
def make (cap : Nat) : Chan :=
  { cap := cap, buf := [], closed := false, sendq := [], panicked := 0 }

/-- Builtin `close(c)`: closing a closed channel panics; closing an open channel makes
every goroutine blocked in a send on it panic. -/
def close (c : Chan) : Chan :=
  if c.closed then { c with panicked := c.panicked + 1 }
  else { c with closed := true, sendq := [], panicked := c.panicked + c.sendq.length }

/-- A goroutine executes `c <- v` (followed by `close(c)` when `thenClose`):
panic on a closed channel, enqueue when the buffer has room, block otherwise. -/
def send (c : Chan) (v : Payload) (thenClose : Bool) : Chan :=
  if c.closed then { c with panicked := c.panicked + 1 }
  else if c.buf.length < c.cap then
    let c1 := { c with buf := c.buf ++ [v] }
    if thenClose then c1.close else c1
  else { c with sendq := c.sendq ++ [⟨v, thenClose⟩] }

/-- Some goroutine executes `<-c`: it takes the oldest buffered value; the oldest
blocked sender, if any, then puts its value in the buffer and goes on (to its
`close(c)` when it has one).  With an empty buffer nothing is taken. -/
def recv (c : Chan) : Chan :=
  match c.buf with
  | [] => c
  | _ :: rest =>
    match c.sendq with
    | [] => { c with buf := rest }
    | s :: q =>
      let c1 := { c with buf := rest ++ [s.val], sendq := q }
      if s.thenClose then c1.close else c1

/-- Values offered to the channel and not yet taken: the buffer followed by the
values of the blocked senders. -/
def pending (c : Chan) : List Payload :=
  c.buf ++ c.sendq.map Sender.val

/-- The main goroutine waits in `select` for `done` while the goroutine it
started is blocked in a send with `ahead` senders before it in the queue.
`recvs` is the number of values the receiver takes from the channel before the
timer fires.  Returns the channel and whether `done` was signalled. -/
def awaitDone (c : Chan) (ahead : Nat) : Nat → Chan × Bool
  | 0 => (c, false)
  | recvs + 1 =>
    match c.buf with
    | [] => (c, false)
    | _ :: _ =>
      let c1 := c.recv
      if c1.closed then (c1, false)
      else match ahead with
        | 0 => (c1, true)
        | k + 1 => awaitDone c1 k recvs

end Chan

/-! ## invokeclient.go -/

structure invokeResult where
  /-- address of the `chan interface{}` -/
  resultChan : Nat
  /-- address of the `chan error` -/
  errChan : Nat
deriving DecidableEq, Repr

structure completionMessage where
  InvocationID : String
  Result : Option Dyn
  Error : String
deriving DecidableEq, Repr

/-- The registry.  `mx` is locked and unlocked around every access to
`resultChans` inside one function, so each access is one atomic step here.
`heap` and `nextChan` are the channel objects the program has allocated. -/
structure invokeClient where
  resultChans : List (String × invokeResult)
  chanReceiveTimeout : Nat
  heap : Nat → Chan
  nextChan : Nat

/-- Replace the channel at address `a`. -/
def setChan (heap : Nat → Chan) (a : Nat) (c : Chan) : Nat → Chan :=
  fun b => if b = a then c else heap b

/-- Map assignment `m[id] = r`. -/
def mapInsert (m : List (String × invokeResult)) (id : String) (r : invokeResult) :
    List (String × invokeResult) :=
  (id, r) :: m.filter (fun e => e.1 != id)

/-- Builtin `delete(m, id)`. -/
def mapDelete (m : List (String × invokeResult)) (id : String) :
    List (String × invokeResult) :=
  m.filter (fun e => e.1 != id)

def newInvokeClient (chanReceiveTimeout : Nat) : invokeClient :=
  { resultChans := [], chanReceiveTimeout := chanReceiveTimeout,
    heap := fun _ => Chan.make 0, nextChan := 0 }

def invokeClient.newInvocation (i : invokeClient) (id : String) : invokeClient × Nat × Nat :=
  let r : invokeResult := { resultChan := i.nextChan, errChan := i.nextChan + 1 }
  let heap1 := setChan i.heap r.resultChan (Chan.make 1)
  let heap2 := setChan heap1 r.errChan (Chan.make 1)
  ({ i with resultChans := mapInsert i.resultChans id r, heap := heap2,
            nextChan := i.nextChan + 2 }, r.resultChan, r.errChan)

def invokeClient.deleteInvocation (i : invokeClient) (id : String) : invokeClient :=
  match i.resultChans.lookup id with
  | some r =>
    let heap1 := setChan i.heap r.resultChan (i.heap r.resultChan).close
    let heap2 := setChan heap1 r.errChan (heap1 r.errChan).close
    { i with resultChans := mapDelete i.resultChans id, heap := heap2 }
  | none => i

/-- Body of the `range` loop of `cancelAllInvokes` for one entry. -/
def cancelOne (heap : Nat → Chan) (r : invokeResult) : Nat → Chan :=
  let heap1 := setChan heap r.resultChan (heap r.resultChan).close
  setChan heap1 r.errChan
    ((heap1 r.errChan).send (.error (.errorString "message loop ended")) true)

def invokeClient.cancelAllInvokes (i : invokeClient) : invokeClient :=
  { i with heap := i.resultChans.foldl (fun h e => cancelOne h e.2) i.heap,
           resultChans := [] }

def invokeClient.handlesInvocationID (i : invokeClient) (invocationID : String) : Bool :=
  (i.resultChans.lookup invocationID).isSome

/-- The goroutine `go func() { ch <- v; done <- struct{}{} }()` followed by the
`select` on `done` and `time.After(chanReceiveTimeout)`.  `recvs` is the number
of values the waiter takes from the slot before the timer fires. -/
def sendOrTimeout (heap : Nat → Chan) (ch : Nat) (v : Payload) (recvs : Nat) :
    (Nat → Chan) × Bool :=
  let c := heap ch
  if c.closed then (setChan heap ch (c.send v false), false)
  else if c.buf.length < c.cap then (setChan heap ch (c.send v false), true)
  else
    let r := (c.send v false).awaitDone c.sendq.length recvs
    (setChan heap ch r.1, r.2)

def invokeClient.receiveCompletionItem (i : invokeClient) (completion : completionMessage)
    (recvs : Nat) : invokeClient × Option GoError :=
  match i.resultChans.lookup completion.InvocationID with
  | some ir =>
    if completion.Error ≠ "" then
      let r := sendOrTimeout i.heap ir.errChan (.error (.errorString completion.Error)) recvs
      if r.2 then ({ i with heap := r.1 }, none)
      else ({ i with heap := r.1 },
            some (.hubChanTimeoutError i.chanReceiveTimeout "error"))
    else if completion.Result ≠ none then
      let r := sendOrTimeout i.heap ir.resultChan (.value completion.Result) recvs
      if r.2 then ({ i with heap := r.1 }, none)
      else ({ i with heap := r.1 },
            some (.hubChanTimeoutError i.chanReceiveTimeout "value"))
    else (i, none)
  | none =>
    (i, some (.errorString ("unknown completion id \"" ++ completion.InvocationID ++ "\"")))

/-- The goroutine awaiting an invocation takes a value from the channel at
address `ch`. -/
def invokeClient.waiterRecv (i : invokeClient) (ch : Nat) : invokeClient :=
  { i with heap := setChan i.heap ch (i.heap ch).recv }

/-! ## serversseconnection.go -/

/-- Go strings and byte slices are sequences of bytes. -/
abbrev Bytes := List Nat

/-- Bytes of an ASCII string literal. -/
def ascii (s : String) : Bytes := s.toList.map Char.toNat

/-- The byte of `"\n"`. -/
def nl : Nat := 10

/-- Library call `strings.TrimRight(s, "\n")`: drop every trailing newline. -/
def TrimRight (s : Bytes) : Bytes :=
  s.rdropWhile (fun b => b == nl)

/-- Library call `strings.Split(s, "\n")`: the pieces of `s` between newlines;
one piece more than there are newlines, so `[""]` for the empty string. -/
def Split : Bytes → List Bytes
  | [] => [[]]
  | b :: rest =>
    if b = nl then [] :: Split rest
    else match Split rest with
      | [] => [[b]]
      | l :: ls => (b :: l) :: ls

/-- The block `Write` builds from `p`: the `for` loop over the lines, and the
final `payload + "\n"`. -/
def sseBlock (p : Bytes) : Bytes :=
  (Split (TrimRight p)).foldl
    (fun payload line => payload ++ ascii "data: " ++ line ++ [nl]) [] ++ [nl]

/-- The SSE form of a payload in the words of the specification: split on
`\n`, one `data: ` line per piece in order, then a blank line. -/
def sseForm (p : Bytes) : Bytes :=
  ((Split p).map (fun l => ascii "data: " ++ l ++ [nl])).flatten ++ [nl]

structure sseJobResult where
  n : Int
  err : Option GoError
deriving DecidableEq, Repr

/-- The connection.  `cancelled` is `Context().Err() != nil`; `mxLocked` is the
state of `mx`; `pipe` holds the bytes written to `postWriter`; `jobChan` and
`jobResultChan` are the buffers of the two capacity-1 channels. -/
structure serverSSEConnection where
  cancelled : Bool
  mxLocked : Bool
  postWriting : Bool
  pipe : Bytes
  jobChan : List Bytes
  jobChanClosed : Bool
  jobResultChan : List sseJobResult
deriving DecidableEq, Repr

/-- State returned by `newServerSSEConnection`. -/
def newServerSSEConnection : serverSSEConnection :=
  { cancelled := false, mxLocked := false, postWriting := false, pipe := [],
    jobChan := [], jobChanClosed := false, jobResultChan := [] }

/-- The cancellation token trips. -/
def serverSSEConnection.cancel (s : serverSSEConnection) : serverSSEConnection :=
  { s with cancelled := true }

/-- The goroutine started by `newServerSSEConnection`, once the token has
tripped: it takes the mutex, closes `jobChan` and releases the mutex.  `none`
while it cannot run: token not tripped, or mutex held. -/
def serverSSEConnection.terminate (s : serverSSEConnection) : Option serverSSEConnection :=
  if s.cancelled && !s.mxLocked then some { s with jobChanClosed := true } else none

/-- An upstream POST: `readAll` is the outcome of `ioutil.ReadAll(request.Body)`. -/
structure Request where
  readAll : Except GoError Bytes

def StatusOK : Nat := 200
def StatusBadRequest : Nat := 400
def StatusConflict : Nat := 409
def StatusGone : Nat := 410
def StatusInternalServerError : Nat := 500

/-- Model of `consumeRequest`.  `pipeFail` is the outcome of
`s.postWriter.Write(body)` when it fails: the number of bytes the pipe took
before the error.  The result is `none` when the call never returns because
`mx` is held and never released. -/
def serverSSEConnection.consumeRequest (s : serverSSEConnection) (request : Request)
    (pipeFail : Option Nat) : serverSSEConnection × Option Nat :=
  if s.cancelled then (s, some StatusGone)
  else if s.mxLocked then (s, none)
  else if s.postWriting then (s, some StatusConflict)
  else
    let s1 := { s with postWriting := true }
    match request.readAll with
    | .error _ => (s1, some StatusBadRequest)
    | .ok body =>
      match pipeFail with
      | some k => ({ s1 with pipe := s1.pipe ++ body.take k }, some StatusInternalServerError)
      | none =>
        let s2 := { s1 with pipe := s1.pipe ++ body }
        ({ s2 with postWriting := false }, some StatusOK)

/-- Outcome of a call of `Write`. -/
inductive WriteResult where
  | returned (n : Int) (err : Option GoError)
  /-- the call never returns: it waits for `mx`, for room in `jobChan` or
  for a job result -/
  | blocked
  /-- send on the closed `jobChan` -/
  | panicked
deriving DecidableEq, Repr

/-- Model of `Write`.  `tripped` tells whether the token trips between the
first check and the moment `mx` is taken.  `handler` is the downstream SSE
handler: given the block it takes from `jobChan`, the result it posts on
`jobResultChan`, if it ever does. -/
def serverSSEConnection.Write (s : serverSSEConnection) (p : Bytes) (tripped : Bool)
    (handler : Bytes → Option sseJobResult) : serverSSEConnection × WriteResult :=
  if s.cancelled then (s, .returned 0 (some .canceled))
  else
    let block := sseBlock p
    let s1 := { s with cancelled := tripped }
    if s1.mxLocked then (s1, .blocked)
    else
      let s2 := { s1 with mxLocked := true }
      if !s2.cancelled then
        if s2.jobChanClosed then (s2, .panicked)
        else if s2.jobChan.length < 1 then
          let s3 := { s2 with jobChan := s2.jobChan ++ [block] }
          let s4 := { s3 with mxLocked := false }
          let s5 :=
            match s4.jobChan with
            | [] => s4
            | b :: rest =>
              match handler b with
              | some r => { s4 with jobChan := rest, jobResultChan := s4.jobResultChan ++ [r] }
              | none => s4
          match s5.jobResultChan with
          | [] => (s5, .blocked)
          | r :: rs => ({ s5 with jobResultChan := rs }, .returned r.n r.err)
        else (s2, .blocked)
      else (s2, .returned 0 (some .canceled))

/-! ## Invariant of the registry -/

/-- The sentinel pushed by `cancelAllInvokes`. -/
def loopEnded : Payload := .error (.errorString "message loop ended")

/-- A slot as the registry keeps it while it is in the map: open, of capacity
1, never over-full, with senders queued only behind a full buffer and none of
them about to close the channel. -/
def SlotOk (c : Chan) : Prop :=
  c.closed = false ∧ c.cap = 1 ∧ c.buf.length ≤ 1 ∧
  (c.sendq = [] ∨ c.buf.length = 1) ∧ ∀ s ∈ c.sendq, s.thenClose = false

instance (c : Chan) : Decidable (SlotOk c) := by
  unfold SlotOk; infer_instance

/-- Two map entries with different keys and no channel in common. -/
def Apart (e1 e2 : String × invokeResult) : Prop :=
  e1.1 ≠ e2.1 ∧ e1.2.resultChan ≠ e2.2.resultChan ∧ e1.2.resultChan ≠ e2.2.errChan ∧
  e1.2.errChan ≠ e2.2.resultChan ∧ e1.2.errChan ≠ e2.2.errChan

instance (e1 e2 : String × invokeResult) : Decidable (Apart e1 e2) := by
  unfold Apart; infer_instance

/-- Well-formed registry: every entry holds two distinct allocated channels,
both in the state `SlotOk`, and distinct entries share neither key nor channel. -/
def WF (i : invokeClient) : Prop :=
  (∀ e ∈ i.resultChans, e.2.resultChan < i.nextChan ∧ e.2.errChan < i.nextChan ∧
      e.2.resultChan ≠ e.2.errChan ∧
      SlotOk (i.heap e.2.resultChan) ∧ SlotOk (i.heap e.2.errChan)) ∧
  i.resultChans.Pairwise Apart

instance (i : invokeClient) : Decidable (WF i) := by
  unfold WF; infer_instance

/-- States the registry reaches from `newInvokeClient` by its four operations,
each called after the previous one returned, and by receives of the waiters. -/
inductive Reachable : invokeClient → Prop where
  | init (t : Nat) : Reachable (newInvokeClient t)
  | newInvocation {i : invokeClient} (h : Reachable i) (id : String) :
      Reachable (i.newInvocation id).1
  | deleteInvocation {i : invokeClient} (h : Reachable i) (id : String) :
      Reachable (i.deleteInvocation id)
  | cancelAllInvokes {i : invokeClient} (h : Reachable i) : Reachable i.cancelAllInvokes
  | receiveCompletionItem {i : invokeClient} (h : Reachable i) (c : completionMessage)
      (recvs : Nat) : Reachable (i.receiveCompletionItem c recvs).1
  | waiterRecv {i : invokeClient} (h : Reachable i) (ch : Nat) : Reachable (i.waiterRecv ch)

/-- A registry with the pending invocations "a" and "b". -/
def regAB : invokeClient :=
  ((newInvokeClient 5).newInvocation "a").1.newInvocation "b" |>.1

/-- The registry `regAB` after a first error completion for "a" that no waiter
has taken yet. -/
def regFull : invokeClient :=
  (regAB.receiveCompletionItem ⟨"a", none, "boom"⟩ 0).1

/-- The slot a completion is sent to: the error slot when it carries an error,
the result slot otherwise. -/
def targetSlot (c : completionMessage) (ir : invokeResult) : Nat :=
  if c.Error ≠ "" then ir.errChan else ir.resultChan

/-- States the connection reaches from `newServerSSEConnection` when the token
trips, the terminating goroutine runs, and `consumeRequest` and `Write` are
called one after the other, each call returning before the next step. -/
inductive SseReachable : serverSSEConnection → Prop where
  | init : SseReachable newServerSSEConnection
  | cancel {s : serverSSEConnection} (h : SseReachable s) : SseReachable s.cancel
  | terminate {s t : serverSSEConnection} (h : SseReachable s) (ht : s.terminate = some t) :
      SseReachable t
  | consumeRequest {s : serverSSEConnection} (h : SseReachable s) (request : Request)
      (pipeFail : Option Nat) (status : Nat)
      (hret : (s.consumeRequest request pipeFail).2 = some status) :
      SseReachable (s.consumeRequest request pipeFail).1
  | Write {s : serverSSEConnection} (h : SseReachable s) (p : Bytes) (tripped : Bool)
      (handler : Bytes → Option sseJobResult) (n : Int) (err : Option GoError)
      (hret : (s.Write p tripped handler).2 = .returned n err) :
      SseReachable (s.Write p tripped handler).1

/-- The registry `regFull` after a second error completion for "a" whose sender
timed out: nobody took the first error. -/
def regBlocked : invokeClient :=
  (regFull.receiveCompletionItem ⟨"a", none, "again"⟩ 0).1

/-- The connection after a POST whose body could not be read. -/
def sseAfterBadRead : serverSSEConnection :=
  (newServerSSEConnection.consumeRequest ⟨.error (.errorString "unexpected EOF")⟩ none).1

/-- The connection after a POST whose body the pipe refused. -/
def sseAfterPipeError : serverSSEConnection :=
  (newServerSSEConnection.consumeRequest ⟨.ok (ascii "ping")⟩ (some 0)).1

/-- The connection after a `Write` during which the token tripped between the
first check and `s.mx.Lock()`. -/
def sseAfterLateCancel : serverSSEConnection :=
  (newServerSSEConnection.Write (ascii "ping") true (fun _ => none)).1


/-! ## Maps and heaps -/

theorem setChan_same (heap : Nat → Chan) (a : Nat) (c : Chan) : setChan heap a c a = c := by
  simp [setChan]

theorem setChan_other (heap : Nat → Chan) (a b : Nat) (c : Chan) (h : b ≠ a) :
    setChan heap a c b = heap b := by
  simp [setChan, h]

theorem lookup_mapDelete_self (m : List (String × invokeResult)) (id : String) :
    (mapDelete m id).lookup id = none := by
  induction m with
  | nil => rfl
  | cons e m ih =>
    obtain ⟨k, r⟩ := e
    by_cases hk : k = id
    · simpa [mapDelete, List.filter_cons, hk] using ih
    · have hk2 : (id == k) = false := by simpa using fun h => hk h.symm
      simpa [mapDelete, List.filter_cons, hk, List.lookup_cons, hk2] using ih

theorem lookup_mapDelete_other (m : List (String × invokeResult)) (id k : String)
    (h : k ≠ id) : (mapDelete m id).lookup k = m.lookup k := by
  induction m with
  | nil => rfl
  | cons e m ih =>
    obtain ⟨k2, r⟩ := e
    by_cases hk : k2 = id
    · subst hk
      have hk2 : (k == k2) = false := by simpa using h
      simpa [mapDelete, List.filter_cons, List.lookup_cons, hk2] using ih
    · cases hkk : (k == k2)
      · simpa [mapDelete, List.filter_cons, hk, List.lookup_cons, hkk] using ih
      · simp [mapDelete, List.filter_cons, hk, List.lookup_cons, hkk]

theorem mem_of_lookup (m : List (String × invokeResult)) (id : String) (r : invokeResult)
    (h : m.lookup id = some r) : (id, r) ∈ m := by
  induction m with
  | nil => simp at h
  | cons e m ih =>
    obtain ⟨k, r2⟩ := e
    cases hk : (id == k)
    · simp [List.lookup_cons, hk] at h
      exact List.mem_cons_of_mem _ (ih h)
    · simp [List.lookup_cons, hk] at h
      have : id = k := by simpa using hk
      simp [this, h]

theorem close_closed (c : Chan) : c.close.closed = true := by
  unfold Chan.close
  split <;> simp_all

/-! ## deleteInvocation and the unknown id -/

/-- C6: `deleteInvocation(id)` on a registered id removes exactly that mapping
(the id is no longer handled, every other id keeps its entry), closes the result
slot and the error slot of the removed entry and touches no other channel; on an
id that is not registered it changes nothing; applied twice it leaves the state
it leaves when applied once. -/
theorem deleteInvocation_spec (i : invokeClient) (id : String) :
    (∀ r, i.resultChans.lookup id = some r →
      (i.deleteInvocation id).handlesInvocationID id = false ∧
      (∀ k, k ≠ id → (i.deleteInvocation id).resultChans.lookup k = i.resultChans.lookup k) ∧
      ((i.deleteInvocation id).heap r.resultChan).closed = true ∧
      ((i.deleteInvocation id).heap r.errChan).closed = true ∧
      (∀ a, a ≠ r.resultChan → a ≠ r.errChan → (i.deleteInvocation id).heap a = i.heap a)) ∧
    (i.handlesInvocationID id = false → i.deleteInvocation id = i) ∧
    (i.deleteInvocation id).deleteInvocation id = i.deleteInvocation id := by
  refine ⟨?_, ?_, ?_⟩
  · intro r hr
    simp only [invokeClient.deleteInvocation, hr, invokeClient.handlesInvocationID]
    refine ⟨by simp [lookup_mapDelete_self], fun k hk => lookup_mapDelete_other _ _ _ hk,
      ?_, ?_, ?_⟩
    · by_cases h : r.resultChan = r.errChan
      · rw [h, setChan_same]; exact close_closed _
      · rw [setChan_other _ _ _ _ h, setChan_same]; exact close_closed _
    · rw [setChan_same]; exact close_closed _
    · intro a h1 h2
      rw [setChan_other _ _ _ _ h2, setChan_other _ _ _ _ h1]
  · intro h
    cases hl : i.resultChans.lookup id with
    | none => simp [invokeClient.deleteInvocation, hl]
    | some r => simp [invokeClient.handlesInvocationID, hl] at h
  · cases hl : i.resultChans.lookup id with
    | none => simp [invokeClient.deleteInvocation, hl]
    | some r =>
      have : (mapDelete i.resultChans id).lookup id = none := lookup_mapDelete_self _ _
      simp [invokeClient.deleteInvocation, hl, this]

/-- C3: `receiveCompletionItem` returns the error `unknown completion id "<id>"`
exactly when the id of the completion is not handled; in that case the registry,
map and channels, is left as it was. -/
theorem receiveCompletionItem_unknown_iff (i : invokeClient) (c : completionMessage)
    (recvs : Nat) :
    ((i.receiveCompletionItem c recvs).2 =
        some (.errorString ("unknown completion id \"" ++ c.InvocationID ++ "\"")) ↔
      i.handlesInvocationID c.InvocationID = false) ∧
    (i.handlesInvocationID c.InvocationID = false →
      (i.receiveCompletionItem c recvs).1 = i) := by
  cases hl : i.resultChans.lookup c.InvocationID with
  | none => simp [invokeClient.receiveCompletionItem, invokeClient.handlesInvocationID, hl]
  | some r =>
    simp only [invokeClient.receiveCompletionItem, invokeClient.handlesInvocationID, hl]
    refine ⟨?_, by simp⟩
    split_ifs <;> simp

/-! ## Channels in the state `SlotOk` -/

theorem send_of_room (c : Chan) (v : Payload) (h : SlotOk c) (hb : c.buf = []) :
    c.send v false = { c with buf := [v] } := by
  obtain ⟨h1, h2, -, -, -⟩ := h
  simp [Chan.send, h1, h2, hb]

theorem send_of_full (c : Chan) (v : Payload) (h : SlotOk c) (hb : c.buf ≠ []) :
    c.send v false = { c with sendq := c.sendq ++ [⟨v, false⟩] } := by
  obtain ⟨h1, h2, h3, -, -⟩ := h
  have : ¬ c.buf.length < 1 := by
    cases hc : c.buf with
    | nil => exact absurd hc hb
    | cons x xs => simp
  simp [Chan.send, h1, h2, this]

theorem slotOk_send (c : Chan) (v : Payload) (h : SlotOk c) : SlotOk (c.send v false) := by
  by_cases hb : c.buf = []
  · rw [send_of_room c v h hb]
    obtain ⟨h1, h2, h3, h4, h5⟩ := h
    rcases h4 with h4 | h4
    · exact ⟨h1, h2, by simp, Or.inl h4, h5⟩
    · simp [hb] at h4
  · rw [send_of_full c v h hb]
    obtain ⟨h1, h2, h3, h4, h5⟩ := h
    have hl : c.buf.length = 1 := by
      cases hc : c.buf with
      | nil => exact absurd hc hb
      | cons x xs => rw [hc] at h3; simp at h3; simp [h3]
    refine ⟨h1, h2, h3, Or.inr hl, ?_⟩
    intro s hs
    simp only [List.mem_append, List.mem_singleton] at hs
    rcases hs with hs | hs
    · exact h5 s hs
    · simp [hs]

theorem pending_send (c : Chan) (v : Payload) (h : SlotOk c) :
    (c.send v false).pending = c.pending ++ [v] := by
  by_cases hb : c.buf = []
  · rw [send_of_room c v h hb]
    obtain ⟨-, -, -, h4, -⟩ := h
    rcases h4 with h4 | h4
    · simp [Chan.pending, h4, hb]
    · simp [hb] at h4
  · rw [send_of_full c v h hb]
    simp [Chan.pending]

theorem slotOk_recv (c : Chan) (h : SlotOk c) : SlotOk c.recv := by
  obtain ⟨h1, h2, h3, h4, h5⟩ := h
  unfold Chan.recv
  cases hb : c.buf with
  | nil => exact ⟨h1, h2, h3, h4, h5⟩
  | cons x xs =>
    have hxs : xs = [] := by
      rw [hb] at h3; simpa using h3
    cases hq : c.sendq with
    | nil => simp [SlotOk, h1, h2, hxs, hq]
    | cons s q =>
      have hs : s.thenClose = false := h5 s (by simp [hq])
      have hq2 : ∀ t ∈ q, t.thenClose = false := fun t ht => h5 t (by simp [hq, ht])
      simp [SlotOk, h1, h2, hxs, hs]
      exact hq2

theorem pending_recv (c : Chan) (h : SlotOk c) : c.recv.pending = c.pending.drop 1 := by
  obtain ⟨h1, h2, h3, h4, h5⟩ := h
  unfold Chan.recv
  cases hb : c.buf with
  | nil =>
    rcases h4 with h4 | h4
    · simp [Chan.pending, hb, h4]
    · simp [hb] at h4
  | cons x xs =>
    have hxs : xs = [] := by
      rw [hb] at h3; simpa using h3
    cases hq : c.sendq with
    | nil => simp [Chan.pending, hb, hxs, hq]
    | cons s q =>
      have hs : s.thenClose = false := h5 s (by simp [hq])
      simp [Chan.pending, hb, hq, hxs, hs]

theorem awaitDone_spec (recvs : Nat) : ∀ (c : Chan) (ahead : Nat), SlotOk c →
    c.sendq.length = ahead + 1 →
    SlotOk (c.awaitDone ahead recvs).1 ∧
    (c.awaitDone ahead recvs).2 = decide (ahead < recvs) ∧
    ∃ k, k ≤ recvs ∧ (c.awaitDone ahead recvs).1.pending = c.pending.drop k := by
  induction recvs with
  | zero =>
    intro c ahead h _
    exact ⟨by simpa [Chan.awaitDone] using h, by simp [Chan.awaitDone], 0, le_refl _,
      by simp [Chan.awaitDone]⟩
  | succ n ih =>
    intro c ahead h hq
    have hne : c.sendq ≠ [] := by
      intro h0; simp [h0] at hq
    have hlen : c.buf.length = 1 := by
      rcases h.2.2.2.1 with h4 | h4
      · exact absurd h4 hne
      · exact h4
    have hok := slotOk_recv c h
    have hpd := pending_recv c h
    have hopen : c.recv.closed = false := hok.1
    have hq1 : c.recv.sendq.length = ahead := by
      obtain ⟨h1, h2, h3, h4, h5⟩ := h
      unfold Chan.recv
      cases hb : c.buf with
      | nil => simp [hb] at hlen
      | cons x xs =>
        cases hs : c.sendq with
        | nil => exact absurd hs hne
        | cons s q =>
          have hsc : s.thenClose = false := h5 s (by simp [hs])
          rw [hs] at hq
          simpa [hsc] using hq
    cases hb : c.buf with
    | nil => simp [hb] at hlen
    | cons x xs =>
      cases ahead with
      | zero =>
        simp only [Chan.awaitDone, hb, hopen, Bool.false_eq_true, if_false]
        exact ⟨hok, by simp, 1, by omega, hpd⟩
      | succ k =>
        simp only [Chan.awaitDone, hb, hopen, Bool.false_eq_true, if_false]
        obtain ⟨i1, i2, j, hj, i3⟩ := ih c.recv k hok hq1
        refine ⟨i1, ?_, j + 1, by omega, ?_⟩
        · simpa using i2
        · rw [i3, hpd, List.drop_drop]
          congr 1
          omega

theorem sendOrTimeout_spec (heap : Nat → Chan) (ch : Nat) (v : Payload) (recvs : Nat)
    (h : SlotOk (heap ch)) :
    (∀ a, a ≠ ch → (sendOrTimeout heap ch v recvs).1 a = heap a) ∧
    SlotOk ((sendOrTimeout heap ch v recvs).1 ch) ∧
    (sendOrTimeout heap ch v recvs).2 =
      decide ((heap ch).buf = [] ∨ (heap ch).sendq.length < recvs) ∧
    ∃ k, k ≤ recvs ∧
      ((sendOrTimeout heap ch v recvs).1 ch).pending = ((heap ch).pending ++ [v]).drop k := by
  have hopen : (heap ch).closed = false := h.1
  have hcap : (heap ch).cap = 1 := h.2.1
  by_cases hb : (heap ch).buf = []
  · have hroom : (heap ch).buf.length < (heap ch).cap := by simp [hb, hcap]
    simp only [sendOrTimeout, hopen, hroom]
    refine ⟨fun a ha => by simp [setChan_other _ _ _ _ ha], ?_, by simp [hb], 0, by omega, ?_⟩
    · simpa [setChan_same] using slotOk_send _ v h
    · simpa [setChan_same] using pending_send _ v h
  · have hroom : ¬ (heap ch).buf.length < (heap ch).cap := by
      rw [hcap]
      cases hc : (heap ch).buf with
      | nil => exact absurd hc hb
      | cons x xs => simp
    have hs := send_of_full _ v h hb
    have hlen : ((heap ch).send v false).sendq.length = (heap ch).sendq.length + 1 := by
      rw [hs]; simp
    obtain ⟨a1, a2, k, hk, a3⟩ := awaitDone_spec recvs _ _ (slotOk_send _ v h) hlen
    simp only [sendOrTimeout, hopen, hroom]
    refine ⟨fun a ha => by simp [setChan_other _ _ _ _ ha], ?_, ?_, k, hk, ?_⟩
    · simpa [setChan_same] using a1
    · simpa [hb] using a2
    · simpa [setChan_same, pending_send _ v h] using a3

/-! ## receiveCompletionItem on a registered id -/

theorem wf_entry (i : invokeClient) (id : String) (ir : invokeResult) (hwf : WF i)
    (hid : i.resultChans.lookup id = some ir) :
    ir.resultChan ≠ ir.errChan ∧ SlotOk (i.heap ir.resultChan) ∧ SlotOk (i.heap ir.errChan) := by
  have h := hwf.1 (id, ir) (mem_of_lookup _ _ _ hid)
  exact ⟨h.2.2.1, h.2.2.2.1, h.2.2.2.2⟩

/-- C1: on a well-formed registry (every reachable one is), a completion for a
registered id with a non-empty `Error` leaves the map and the result slot as
they were, touches no channel but the error slot of that id, and offers that
slot exactly one new value, the error with message `completion.Error`, behind
what the slot already held (the waiter may have taken `k` values meanwhile),
whatever `completion.Result` is. -/
theorem receiveCompletionItem_error (i : invokeClient) (c : completionMessage) (recvs : Nat)
    (ir : invokeResult) (hwf : WF i)
    (hid : i.resultChans.lookup c.InvocationID = some ir) (herr : c.Error ≠ "") :
    (i.receiveCompletionItem c recvs).1.resultChans = i.resultChans ∧
    (i.receiveCompletionItem c recvs).1.heap ir.resultChan = i.heap ir.resultChan ∧
    (∀ a, a ≠ ir.errChan → (i.receiveCompletionItem c recvs).1.heap a = i.heap a) ∧
    ∃ k, k ≤ recvs ∧ ((i.receiveCompletionItem c recvs).1.heap ir.errChan).pending =
      ((i.heap ir.errChan).pending ++ [Payload.error (GoError.errorString c.Error)]).drop k := by
  obtain ⟨hne, -, hok⟩ := wf_entry i _ ir hwf hid
  obtain ⟨s1, -, -, s4⟩ :=
    sendOrTimeout_spec i.heap ir.errChan (.error (.errorString c.Error)) recvs hok
  simp only [invokeClient.receiveCompletionItem, hid, herr, ne_eq, not_false_eq_true, if_true]
  split_ifs <;> exact ⟨rfl, s1 _ hne, s1, s4⟩

/-- C2 as the code has it: on a well-formed registry, a completion for a
registered id with an empty `Error` and a non-nil `Result` leaves the map and
the error slot as they were, touches no channel but the result slot of that id
and offers that slot exactly one new value, `completion.Result`; with an empty
`Error` and a nil `Result` the call returns nil and feeds neither slot: the
registry is left as it was. -/
theorem receiveCompletionItem_result (i : invokeClient) (c : completionMessage) (recvs : Nat)
    (ir : invokeResult) (hwf : WF i)
    (hid : i.resultChans.lookup c.InvocationID = some ir) (herr : c.Error = "") :
    (c.Result ≠ none →
      (i.receiveCompletionItem c recvs).1.resultChans = i.resultChans ∧
      (i.receiveCompletionItem c recvs).1.heap ir.errChan = i.heap ir.errChan ∧
      (∀ a, a ≠ ir.resultChan → (i.receiveCompletionItem c recvs).1.heap a = i.heap a) ∧
      ∃ k, k ≤ recvs ∧ ((i.receiveCompletionItem c recvs).1.heap ir.resultChan).pending =
        ((i.heap ir.resultChan).pending ++ [Payload.value c.Result]).drop k) ∧
    (c.Result = none → i.receiveCompletionItem c recvs = (i, none)) := by
  obtain ⟨hne, hok, -⟩ := wf_entry i _ ir hwf hid
  obtain ⟨s1, -, -, s4⟩ := sendOrTimeout_spec i.heap ir.resultChan (.value c.Result) recvs hok
  refine ⟨fun hres => ?_, fun hres => ?_⟩
  · simp only [invokeClient.receiveCompletionItem, hid, herr, hres, ne_eq, not_true_eq_false,
      not_false_eq_true, if_true, if_false]
    split_ifs <;> exact ⟨rfl, s1 _ (Ne.symm hne), s1, s4⟩
  · simp [invokeClient.receiveCompletionItem, hid, herr, hres]

/-- C4 as the code has it: on a well-formed registry, for a registered id and a
completion with a non-empty `Error` or a non-nil `Result`, the call returns nil
exactly when the targeted slot, of capacity 1, is empty (then no receiver is
needed at all) or the waiter takes, before the timer fires, more values from
the slot than there are senders already blocked on it; otherwise it returns a
`hubChanTimeoutError`.  The map is unchanged in both cases. -/
theorem receiveCompletionItem_timeout (i : invokeClient) (c : completionMessage) (recvs : Nat)
    (ir : invokeResult) (hwf : WF i)
    (hid : i.resultChans.lookup c.InvocationID = some ir)
    (hload : c.Error ≠ "" ∨ c.Result ≠ none) :
    (i.receiveCompletionItem c recvs).2 =
      (if (i.heap (targetSlot c ir)).buf = [] ∨ (i.heap (targetSlot c ir)).sendq.length < recvs
       then none
       else some (.hubChanTimeoutError i.chanReceiveTimeout
          (if c.Error ≠ "" then "error" else "value"))) ∧
    (i.receiveCompletionItem c recvs).1.resultChans = i.resultChans := by
  obtain ⟨-, hok1, hok2⟩ := wf_entry i _ ir hwf hid
  by_cases herr : c.Error = ""
  · have hres : c.Result ≠ none := by
      rcases hload with h | h
      · exact absurd herr h
      · exact h
    obtain ⟨-, -, s3, -⟩ :=
      sendOrTimeout_spec i.heap ir.resultChan (.value c.Result) recvs hok1
    simp only [invokeClient.receiveCompletionItem, hid, herr, hres, targetSlot, ne_eq,
      not_true_eq_false, not_false_eq_true, if_true, if_false, s3]
    split_ifs <;> simp_all
  · obtain ⟨-, -, s3, -⟩ :=
      sendOrTimeout_spec i.heap ir.errChan (.error (.errorString c.Error)) recvs hok2
    simp only [invokeClient.receiveCompletionItem, hid, herr, targetSlot, ne_eq,
      not_false_eq_true, if_true, s3]
    split_ifs <;> simp_all

theorem receiveCompletionItem_error_witness :
    (regFull.receiveCompletionItem ⟨"a", some (.num 1), "again"⟩ 0).1.heap 0 = regFull.heap 0 :=
  (receiveCompletionItem_error regFull ⟨"a", some (.num 1), "again"⟩ 0 ⟨0, 1⟩
    (by decide) (by decide) (by decide)).2.1

/-- C2 fails for a nil result: after a completion for "a" with an empty `Error`
and a nil `Result`, the result slot of "a" (address 0) holds nothing, although
a waiter was ready to take a value. -/
theorem receiveCompletionItem_nil_result_not_fed :
    regAB.resultChans.lookup "a" = some ⟨0, 1⟩ ∧
    ((regAB.receiveCompletionItem ⟨"a", none, ""⟩ 1).1.heap 0).pending = [] ∧
    Payload.value none ∉ ((regAB.receiveCompletionItem ⟨"a", none, ""⟩ 1).1.heap 0).pending := by
  decide

theorem receiveCompletionItem_result_witness :
    (regAB.receiveCompletionItem ⟨"a", none, ""⟩ 1) = (regAB, none) :=
  (receiveCompletionItem_result regAB ⟨"a", none, ""⟩ 1 ⟨0, 1⟩
    (by decide) (by decide) (by decide)).2 (by decide)

/-- C4 fails on an empty slot: with no receiver taking anything from the error
slot of "a" (`recvs = 0`), the completion is buffered and the call returns
nil, not a `hubChanTimeoutError`. -/
theorem receiveCompletionItem_nil_without_receiver :
    regAB.resultChans.lookup "a" = some ⟨0, 1⟩ ∧
    (regAB.receiveCompletionItem ⟨"a", none, "boom"⟩ 0).2 = none ∧
    ((regAB.receiveCompletionItem ⟨"a", none, "boom"⟩ 0).1.heap 1).buf =
      [.error (.errorString "boom")] := by
  decide

theorem receiveCompletionItem_timeout_witness :
    (regFull.receiveCompletionItem ⟨"a", none, "again"⟩ 0).2 =
      some (.hubChanTimeoutError 5 "error") :=
  (receiveCompletionItem_timeout regFull ⟨"a", none, "again"⟩ 0 ⟨0, 1⟩
    (by decide) (by decide) (by decide)).1

/-! ## cancelAllInvokes -/

theorem cancelOne_other (heap : Nat → Chan) (r : invokeResult) (a : Nat)
    (h1 : a ≠ r.resultChan) (h2 : a ≠ r.errChan) : cancelOne heap r a = heap a := by
  simp [cancelOne, setChan, h1, h2]

theorem cancelOne_result (heap : Nat → Chan) (r : invokeResult)
    (h : r.resultChan ≠ r.errChan) : cancelOne heap r r.resultChan = (heap r.resultChan).close := by
  simp [cancelOne, setChan, h]

theorem cancelOne_err (heap : Nat → Chan) (r : invokeResult)
    (h : r.resultChan ≠ r.errChan) :
    cancelOne heap r r.errChan = (heap r.errChan).send loopEnded true := by
  simp [cancelOne, setChan, Ne.symm h, loopEnded]

theorem foldl_cancel_other (l : List (String × invokeResult)) :
    ∀ (heap : Nat → Chan) (a : Nat),
      (∀ e ∈ l, a ≠ e.2.resultChan ∧ a ≠ e.2.errChan) →
      (l.foldl (fun h e => cancelOne h e.2) heap) a = heap a := by
  induction l with
  | nil => intro heap a _; rfl
  | cons x xs ih =>
    intro heap a h
    rw [List.foldl_cons, ih _ a (fun e he => h e (List.mem_cons_of_mem _ he))]
    exact cancelOne_other _ _ _ (h x (List.mem_cons_self _ _)).1 (h x (List.mem_cons_self _ _)).2

theorem foldl_cancel_mem (l : List (String × invokeResult)) :
    ∀ (heap : Nat → Chan), l.Pairwise Apart →
      (∀ e ∈ l, e.2.resultChan ≠ e.2.errChan) →
      ∀ e ∈ l,
        (l.foldl (fun h e => cancelOne h e.2) heap) e.2.resultChan = (heap e.2.resultChan).close ∧
        (l.foldl (fun h e => cancelOne h e.2) heap) e.2.errChan =
          (heap e.2.errChan).send loopEnded true := by
  induction l with
  | nil => intro heap _ _ e he; simp at he
  | cons x xs ih =>
    intro heap hp hown e he
    rw [List.pairwise_cons] at hp
    rw [List.foldl_cons]
    rcases List.mem_cons.mp he with rfl | hxs
    · have hx := hown e (List.mem_cons_self _ _)
      rw [foldl_cancel_other xs _ e.2.resultChan
            (fun y hy => ⟨(hp.1 y hy).2.1, (hp.1 y hy).2.2.1⟩),
          foldl_cancel_other xs _ e.2.errChan
            (fun y hy => ⟨(hp.1 y hy).2.2.2.1, (hp.1 y hy).2.2.2.2⟩)]
      exact ⟨cancelOne_result _ _ hx, cancelOne_err _ _ hx⟩
    · have hap := hp.1 e hxs
      obtain ⟨i1, i2⟩ := ih (cancelOne heap x.2) hp.2
        (fun y hy => hown y (List.mem_cons_of_mem _ hy)) e hxs
      rw [i1, i2, cancelOne_other _ _ _ (Ne.symm hap.2.1) (Ne.symm hap.2.2.2.1),
        cancelOne_other _ _ _ (Ne.symm hap.2.2.1) (Ne.symm hap.2.2.2.2)]
      exact ⟨rfl, rfl⟩

theorem send_close_of_room (c : Chan) (v : Payload) (h : SlotOk c) (hb : c.buf = []) :
    c.send v true = { c with buf := [v], closed := true } := by
  obtain ⟨h1, h2, -, h4, -⟩ := h
  have hq : c.sendq = [] := by
    rcases h4 with h4 | h4
    · exact h4
    · simp [hb] at h4
  cases c
  simp_all [Chan.send, Chan.close]

theorem send_close_of_full (c : Chan) (v : Payload) (h : SlotOk c) (hb : c.buf ≠ []) :
    c.send v true = { c with sendq := c.sendq ++ [⟨v, true⟩] } := by
  obtain ⟨h1, h2, h3, -, -⟩ := h
  have : ¬ c.buf.length < 1 := by
    cases hc : c.buf with
    | nil => exact absurd hc hb
    | cons x xs => simp
  simp [Chan.send, h1, h2, this]

/-- C5: on a well-formed registry (every reachable one is), after
`cancelAllInvokes` the map is empty, so no id is handled; for every entry that
was in the map the result slot is closed, and the error slot is offered the
sentinel `"message loop ended"` behind everything it already held, with no
panic on it: either the slot was empty, and now holds the sentinel and is
closed, or it was full, and it keeps its buffered error, stays open and has the
goroutine that sends the sentinel and then closes queued on it; in that case,
when nothing else was queued, the sentinel is buffered and the slot is closed
as soon as the waiter takes the buffered error. -/
theorem cancelAllInvokes_spec (i : invokeClient) (hwf : WF i) :
    i.cancelAllInvokes.resultChans = [] ∧
    (∀ id, i.cancelAllInvokes.handlesInvocationID id = false) ∧
    ∀ e ∈ i.resultChans,
      (i.cancelAllInvokes.heap e.2.resultChan).closed = true ∧
      (i.cancelAllInvokes.heap e.2.errChan).pending =
        (i.heap e.2.errChan).pending ++ [loopEnded] ∧
      (i.cancelAllInvokes.heap e.2.errChan).panicked = (i.heap e.2.errChan).panicked ∧
      (((i.cancelAllInvokes.heap e.2.errChan).closed = true ∧
          (i.cancelAllInvokes.heap e.2.errChan).buf = (i.heap e.2.errChan).buf ++ [loopEnded]) ∨
        ((i.cancelAllInvokes.heap e.2.errChan).closed = false ∧
          (i.cancelAllInvokes.heap e.2.errChan).buf = (i.heap e.2.errChan).buf ∧
          (i.cancelAllInvokes.heap e.2.errChan).sendq =
            (i.heap e.2.errChan).sendq ++ [⟨loopEnded, true⟩] ∧
          ((i.heap e.2.errChan).sendq = [] →
            (i.cancelAllInvokes.heap e.2.errChan).recv.buf = [loopEnded] ∧
            (i.cancelAllInvokes.heap e.2.errChan).recv.closed = true ∧
            (i.cancelAllInvokes.heap e.2.errChan).recv.panicked =
              (i.heap e.2.errChan).panicked))) := by
  refine ⟨rfl, fun id => rfl, fun e he => ?_⟩
  obtain ⟨-, -, hown, -, hok⟩ := hwf.1 e he
  obtain ⟨f1, f2⟩ := foldl_cancel_mem i.resultChans i.heap hwf.2
    (fun y hy => (hwf.1 y hy).2.2.1) e he
  have g1 : i.cancelAllInvokes.heap e.2.resultChan = (i.heap e.2.resultChan).close := f1
  have g2 : i.cancelAllInvokes.heap e.2.errChan = (i.heap e.2.errChan).send loopEnded true := f2
  rw [g1, g2]
  refine ⟨close_closed _, ?_⟩
  by_cases hb : (i.heap e.2.errChan).buf = []
  · have hq : (i.heap e.2.errChan).sendq = [] := by
      rcases hok.2.2.2.1 with h4 | h4
      · exact h4
      · simp [hb] at h4
    rw [send_close_of_room _ _ hok hb]
    simp [Chan.pending, hb, hq]
  · rw [send_close_of_full _ _ hok hb]
    refine ⟨by simp [Chan.pending], rfl, Or.inr ⟨hok.1, rfl, rfl, fun hq => ?_⟩⟩
    have hlen : (i.heap e.2.errChan).buf.length ≤ 1 := hok.2.2.1
    cases hc : (i.heap e.2.errChan).buf with
    | nil => exact absurd hc hb
    | cons x xs =>
      have hxs : xs = [] := by
        rw [hc] at hlen; simpa using hlen
      simp [Chan.recv, Chan.close, hc, hq, hxs, hok.1]

theorem cancelAllInvokes_spec_witness :
    (regFull.cancelAllInvokes.heap 0).closed = true ∧
    (regFull.cancelAllInvokes.heap 1).pending =
      [.error (.errorString "boom"), .error (.errorString "message loop ended")] :=
  ⟨((cancelAllInvokes_spec regFull (by decide)).2.2 ("a", ⟨0, 1⟩) (by decide)).1,
   ((cancelAllInvokes_spec regFull (by decide)).2.2 ("a", ⟨0, 1⟩) (by decide)).2.1⟩

/-! ## Every reachable registry is well-formed -/

theorem apart_symm : Symmetric Apart := by
  intro e1 e2 h
  exact ⟨Ne.symm h.1, Ne.symm h.2.1, Ne.symm h.2.2.2.1, Ne.symm h.2.2.1, Ne.symm h.2.2.2.2⟩

theorem wf_of_slots (i j : invokeClient) (hm : j.resultChans = i.resultChans)
    (hn : j.nextChan = i.nextChan)
    (hs : ∀ a, SlotOk (i.heap a) → SlotOk (j.heap a)) (hwf : WF i) : WF j := by
  refine ⟨fun e he => ?_, by rw [hm]; exact hwf.2⟩
  rw [hm] at he
  obtain ⟨h1, h2, h3, h4, h5⟩ := hwf.1 e he
  exact ⟨by rw [hn]; exact h1, by rw [hn]; exact h2, h3, hs _ h4, hs _ h5⟩

theorem slotOk_make : SlotOk (Chan.make 1) := by
  simp [SlotOk, Chan.make]

theorem wf_newInvokeClient (t : Nat) : WF (newInvokeClient t) := by
  simp [WF, newInvokeClient]

theorem wf_newInvocation (i : invokeClient) (id : String) (hwf : WF i) :
    WF (i.newInvocation id).1 := by
  have hold : ∀ e ∈ i.resultChans.filter (fun e => e.1 != id),
      e ∈ i.resultChans ∧ e.1 ≠ id := by
    intro e he
    rw [List.mem_filter] at he
    exact ⟨he.1, by simpa using he.2⟩
  refine ⟨fun e he => ?_, ?_⟩
  · simp only [invokeClient.newInvocation, mapInsert, List.mem_cons] at he
    rcases he with rfl | he
    · simp only [invokeClient.newInvocation]
      refine ⟨by omega, by omega, by omega, ?_, ?_⟩
      · rw [setChan_other _ _ _ _ (by omega), setChan_same]; exact slotOk_make
      · rw [setChan_same]; exact slotOk_make
    · obtain ⟨h1, h2, h3, h4, h5⟩ := hwf.1 e (hold e he).1
      simp only [invokeClient.newInvocation]
      refine ⟨by omega, by omega, h3, ?_, ?_⟩
      · rw [setChan_other _ _ _ _ (by omega), setChan_other _ _ _ _ (by omega)]; exact h4
      · rw [setChan_other _ _ _ _ (by omega), setChan_other _ _ _ _ (by omega)]; exact h5
  · simp only [invokeClient.newInvocation, mapInsert, List.pairwise_cons]
    refine ⟨fun e he => ?_, hwf.2.filter _⟩
    obtain ⟨h1, h2, -, -, -⟩ := hwf.1 e (hold e he).1
    exact ⟨Ne.symm (hold e he).2, by simp only; omega, by simp only; omega,
      by simp only; omega, by simp only; omega⟩

theorem wf_deleteInvocation (i : invokeClient) (id : String) (hwf : WF i) :
    WF (i.deleteInvocation id) := by
  cases hl : i.resultChans.lookup id with
  | none => simpa [invokeClient.deleteInvocation, hl] using hwf
  | some r =>
    have hr := mem_of_lookup _ _ _ hl
    simp only [invokeClient.deleteInvocation, hl, mapDelete]
    refine ⟨fun e he => ?_, hwf.2.filter _⟩
    simp only [List.mem_filter] at he
    have hne : e.1 ≠ id := by simpa using he.2
    have hap : Apart e (id, r) :=
      hwf.2.forall apart_symm he.1 hr (fun h => hne (by rw [h]))
    obtain ⟨h1, h2, h3, h4, h5⟩ := hwf.1 e he.1
    have a1 : e.2.resultChan ≠ r.resultChan := hap.2.1
    have a2 : e.2.resultChan ≠ r.errChan := hap.2.2.1
    have a3 : e.2.errChan ≠ r.resultChan := hap.2.2.2.1
    have a4 : e.2.errChan ≠ r.errChan := hap.2.2.2.2
    refine ⟨h1, h2, h3, ?_, ?_⟩
    · show SlotOk (setChan _ _ _ _)
      rw [setChan_other _ _ _ _ a2, setChan_other _ _ _ _ a1]; exact h4
    · show SlotOk (setChan _ _ _ _)
      rw [setChan_other _ _ _ _ a4, setChan_other _ _ _ _ a3]; exact h5

theorem wf_cancelAllInvokes (i : invokeClient) : WF i.cancelAllInvokes := by
  simp [WF, invokeClient.cancelAllInvokes]

theorem slotOk_sendOrTimeout (heap : Nat → Chan) (ch : Nat) (v : Payload) (recvs : Nat)
    (h : SlotOk (heap ch)) (a : Nat) (ha : SlotOk (heap a)) :
    SlotOk ((sendOrTimeout heap ch v recvs).1 a) := by
  obtain ⟨s1, s2, -, -⟩ := sendOrTimeout_spec heap ch v recvs h
  by_cases hac : a = ch
  · rw [hac]; exact s2
  · rw [s1 a hac]; exact ha

theorem wf_receiveCompletionItem (i : invokeClient) (c : completionMessage) (recvs : Nat)
    (hwf : WF i) : WF (i.receiveCompletionItem c recvs).1 := by
  cases hl : i.resultChans.lookup c.InvocationID with
  | none => simpa [invokeClient.receiveCompletionItem, hl] using hwf
  | some ir =>
    obtain ⟨-, hok1, hok2⟩ := wf_entry i _ ir hwf hl
    simp only [invokeClient.receiveCompletionItem, hl]
    split_ifs
    · exact wf_of_slots i _ rfl rfl (slotOk_sendOrTimeout _ _ _ _ hok2) hwf
    · exact wf_of_slots i _ rfl rfl (slotOk_sendOrTimeout _ _ _ _ hok2) hwf
    · exact wf_of_slots i _ rfl rfl (slotOk_sendOrTimeout _ _ _ _ hok1) hwf
    · exact wf_of_slots i _ rfl rfl (slotOk_sendOrTimeout _ _ _ _ hok1) hwf
    · exact hwf

theorem wf_waiterRecv (i : invokeClient) (ch : Nat) (hwf : WF i) : WF (i.waiterRecv ch) := by
  refine wf_of_slots i _ rfl rfl (fun a ha => ?_) hwf
  by_cases hac : a = ch
  · subst hac
    simpa [invokeClient.waiterRecv, setChan_same] using slotOk_recv _ ha
  · simpa [invokeClient.waiterRecv, setChan_other _ _ _ _ hac] using ha

/-- Every state the registry reaches is well-formed. -/
theorem reachable_wf (i : invokeClient) (h : Reachable i) : WF i := by
  induction h with
  | init t => exact wf_newInvokeClient t
  | newInvocation _ id ih => exact wf_newInvocation _ id ih
  | deleteInvocation _ id ih => exact wf_deleteInvocation _ id ih
  | cancelAllInvokes _ _ => exact wf_cancelAllInvokes _
  | receiveCompletionItem _ c recvs ih => exact wf_receiveCompletionItem _ c recvs ih
  | waiterRecv _ ch ih => exact wf_waiterRecv _ ch ih

/-! ## The SSE block built by Write -/

theorem foldl_data_lines (l : List Bytes) : ∀ acc : Bytes,
    l.foldl (fun payload line => payload ++ ascii "data: " ++ line ++ [nl]) acc =
      acc ++ (l.map (fun line => ascii "data: " ++ line ++ [nl])).flatten := by
  induction l with
  | nil => intro acc; simp
  | cons x xs ih =>
    intro acc
    rw [List.foldl_cons, ih, List.map_cons, List.flatten_cons]
    simp only [List.append_assoc]

/-- The loop of `Write` computes the SSE form of the payload without its
trailing newlines. -/
theorem sseBlock_eq_sseForm (p : Bytes) : sseBlock p = sseForm (TrimRight p) := by
  rw [sseBlock, sseForm, foldl_data_lines, List.nil_append]

theorem TrimRight_concat (p : Bytes) (b : Nat) :
    TrimRight (p ++ [b]) = if b = nl then TrimRight p else p ++ [b] := by
  simp [TrimRight, List.rdropWhile_concat]

theorem TrimRight_spec (p : Bytes) :
    (∃ k, p = TrimRight p ++ List.replicate k nl) ∧ (TrimRight p).getLast? ≠ some nl := by
  induction p using List.reverseRecOn with
  | nil => exact ⟨⟨0, by simp [TrimRight]⟩, by simp [TrimRight]⟩
  | append_singleton p b ih =>
    rw [TrimRight_concat]
    by_cases hb : b = nl
    · obtain ⟨⟨k, hk⟩, h2⟩ := ih
      simp only [hb, if_true]
      refine ⟨⟨k + 1, ?_⟩, h2⟩
      conv_lhs => rw [hk]
      simp [List.replicate_succ', List.append_assoc]
    · simp only [hb, if_false]
      exact ⟨⟨0, by simp⟩, by simpa using hb⟩

theorem TrimRight_of_no_trailing (p : Bytes) (h : p.getLast? ≠ some nl) : TrimRight p = p := by
  induction p using List.reverseRecOn with
  | nil => simp [TrimRight]
  | append_singleton p b _ =>
    rw [TrimRight_concat]
    have hb : b ≠ nl := by simpa using h
    simp [hb]

/-- C7 as the code has it: on a live connection (token not tripped, mutex
free, `jobChan` open and empty) the block `Write` enqueues on `jobChan` is the
SSE form of `p` without its trailing newlines: `TrimRight p` is `p` less a run
of `\n` at its end, it is split on `\n`, each piece gives one line
`data: <piece>\n` in order, and one more `\n` ends the block.  For a payload
that does not end in `\n` this is the SSE form of `p` itself.  The downstream
handler receives exactly that block: `Write` returns the result the handler
posts for it. -/
theorem Write_enqueues_sse_block (s : serverSSEConnection) (p : Bytes)
    (hlive : s.cancelled = false) (hmx : s.mxLocked = false)
    (hopen : s.jobChanClosed = false) (hroom : s.jobChan = []) :
    (s.Write p false (fun _ => none)).1.jobChan = [sseForm (TrimRight p)] ∧
    ((∃ k, p = TrimRight p ++ List.replicate k nl) ∧ (TrimRight p).getLast? ≠ some nl) ∧
    (p.getLast? ≠ some nl → (s.Write p false (fun _ => none)).1.jobChan = [sseForm p]) ∧
    (s.jobResultChan = [] → ∀ (handler : Bytes → Option sseJobResult) (r : sseJobResult),
      handler (sseForm (TrimRight p)) = some r →
      s.Write p false handler = (s, .returned r.n r.err)) := by
  have h1 : (s.Write p false (fun _ => none)).1.jobChan = [sseForm (TrimRight p)] := by
    rw [← sseBlock_eq_sseForm]
    cases hr : s.jobResultChan <;>
      simp [serverSSEConnection.Write, hlive, hmx, hopen, hroom, hr]
  refine ⟨h1, TrimRight_spec p, fun hp => ?_, fun hres handler r hh => ?_⟩
  · rw [h1, TrimRight_of_no_trailing p hp]
  · rw [← sseBlock_eq_sseForm] at hh
    cases s
    simp_all [serverSSEConnection.Write]

theorem Write_enqueues_sse_block_witness :
    (newServerSSEConnection.Write (ascii "a\nb") false (fun _ => none)).1.jobChan =
      [sseForm (ascii "a\nb")] :=
  (Write_enqueues_sse_block newServerSSEConnection (ascii "a\nb")
    (by decide) (by decide) (by decide) (by decide)).2.2.1 (by decide)

/-- C7 fails for a payload that ends in a newline: for `"a\n"` the block put
on `jobChan` is `data: a`, newline, newline, while splitting `"a\n"` on `\n`
gives the two lines `a` and the empty line, hence two data lines. -/
theorem Write_drops_trailing_newline :
    (newServerSSEConnection.Write (ascii "a\n") false (fun _ => none)).1.jobChan =
      [ascii "data: a\n\n"] ∧
    sseForm (ascii "a\n") = ascii "data: a\ndata: \n\n" ∧
    (newServerSSEConnection.Write (ascii "a\n") false (fun _ => none)).1.jobChan ≠
      [sseForm (ascii "a\n")] := by
  decide

/-! ## consumeRequest -/

/-- The mutex is left locked only on a cancelled connection. -/
theorem sseReachable_mx (s : serverSSEConnection) (h : SseReachable s) :
    s.mxLocked = true → s.cancelled = true := by
  induction h with
  | init => simp [newServerSSEConnection]
  | cancel _ _ => simp [serverSSEConnection.cancel]
  | @terminate s t _ ht ih =>
    simp only [serverSSEConnection.terminate] at ht
    split_ifs at ht with hc
    cases ht
    simp_all
  | @consumeRequest s _ request pipeFail status hret ih =>
    revert hret
    simp only [serverSSEConnection.consumeRequest]
    split_ifs <;> [skip; skip; skip; (cases request.readAll <;> cases pipeFail)] <;> simp_all
  | @Write s _ p tripped handler n err hret ih =>
    revert hret
    simp only [serverSSEConnection.Write]
    split_ifs <;> try simp_all
    all_goals (split <;> split <;> simp_all)

/-- C8: when the call returns at all (the mutex is free, or the token is
tripped), the status of `consumeRequest` is 410 exactly when the token is
tripped, also when `postWriting` is set; else 409 exactly when `postWriting` is
set; else 400 exactly when reading the body fails; else 500 exactly when the
write to the pipe fails; else 200, and with 200 the whole body has been
appended to the pipe. -/
theorem consumeRequest_status (s : serverSSEConnection) (request : Request)
    (pipeFail : Option Nat) (hmx : s.mxLocked = true → s.cancelled = true) :
    (s.consumeRequest request pipeFail).2 = some
      (if s.cancelled then 410
       else if s.postWriting then 409
       else if request.readAll.toOption = none then 400
       else if pipeFail ≠ none then 500
       else 200) ∧
    ((s.consumeRequest request pipeFail).2 = some 200 →
      ∃ body, request.readAll = .ok body ∧
        (s.consumeRequest request pipeFail).1.pipe = s.pipe ++ body) := by
  by_cases hc : s.cancelled = true
  · simp [serverSSEConnection.consumeRequest, hc, StatusGone]
  · have hl : s.mxLocked = false := by
      cases h : s.mxLocked
      · rfl
      · exact absurd (hmx h) hc
    by_cases hp : s.postWriting = true
    · simp [serverSSEConnection.consumeRequest, hc, hl, hp, StatusConflict]
    · cases hr : request.readAll with
      | error e =>
        simp [serverSSEConnection.consumeRequest, hc, hl, hp, hr, StatusBadRequest,
          Except.toOption]
      | ok body =>
        cases hf : pipeFail with
        | some k =>
          simp [serverSSEConnection.consumeRequest, hc, hl, hp, hr, hf,
            StatusInternalServerError, Except.toOption]
        | none =>
          simp [serverSSEConnection.consumeRequest, hc, hl, hp, hr, hf, StatusOK,
            Except.toOption]

theorem consumeRequest_status_witness :
    ({ newServerSSEConnection with cancelled := true, postWriting := true }.consumeRequest
      ⟨.ok (ascii "ping")⟩ none).2 = some 410 :=
  (consumeRequest_status { newServerSSEConnection with cancelled := true, postWriting := true }
    ⟨.ok (ascii "ping")⟩ none (by decide)).1

/-- C9 at its failing input: on a fresh live connection a POST whose body
cannot be read returns 400 and leaves `postWriting` set, so the next POST, made
after the first has returned, gets 409; the same happens after a 500. -/
theorem consumeRequest_conflict_after_failure :
    (newServerSSEConnection.consumeRequest ⟨.error (.errorString "unexpected EOF")⟩ none).2 =
      some 400 ∧
    sseAfterBadRead.postWriting = true ∧
    (sseAfterBadRead.consumeRequest ⟨.ok (ascii "ping")⟩ none).2 = some 409 ∧
    (newServerSSEConnection.consumeRequest ⟨.ok (ascii "ping")⟩ (some 0)).2 = some 500 ∧
    (sseAfterPipeError.consumeRequest ⟨.ok (ascii "ping")⟩ none).2 = some 409 := by
  decide

/-! ## Closing a slot a sender is blocked on -/

/-- C10 at its failing input: after `newInvocation("a")`, a first error
completion for "a" is buffered in the error slot (address 1); a second one,
with no receiver, times out and leaves its sender goroutine blocked on the
slot; `deleteInvocation("a")` then closes the slot and that goroutine panics
with a send on a closed channel.  `cancelAllInvokes` does the same to a sender
blocked on a result slot. -/
theorem deleteInvocation_panics_blocked_sender :
    (regFull.receiveCompletionItem ⟨"a", none, "again"⟩ 0).2 =
      some (.hubChanTimeoutError 5 "error") ∧
    (regBlocked.heap 1).sendq = [⟨.error (.errorString "again"), false⟩] ∧
    (regBlocked.heap 1).panicked = 0 ∧
    ((regBlocked.deleteInvocation "a").heap 1).closed = true ∧
    ((regBlocked.deleteInvocation "a").heap 1).panicked = 1 ∧
    ((((regAB.receiveCompletionItem ⟨"b", some (.num 1), ""⟩ 0).1.receiveCompletionItem
        ⟨"b", some (.num 2), ""⟩ 0).1.cancelAllInvokes).heap 2).panicked = 1 := by
  decide

/-! ## The mutex after Write -/

/-- A call of `Write` that finds the mutex free and returns leaves it locked
exactly when the token was alive at the first check and tripped before the
mutex was taken. -/
theorem Write_mx_on_return (s : serverSSEConnection) (p : Bytes) (tripped : Bool)
    (handler : Bytes → Option sseJobResult) (n : Int) (err : Option GoError)
    (hmx : s.mxLocked = false) (hret : (s.Write p tripped handler).2 = .returned n err) :
    (s.Write p tripped handler).1.mxLocked = (!s.cancelled && tripped) := by
  revert hret
  simp only [serverSSEConnection.Write]
  split_ifs <;> try simp_all
  all_goals (split <;> split <;> simp_all)

/-- C11 at its failing input: on a fresh live connection whose token trips
after the first check of `Write` and before `s.mx.Lock()`, `Write` returns the
cancelled error with the mutex still locked, so the terminating goroutine
cannot take the mutex and `jobChan` stays open.  The two other return paths,
token tripped before the first check and block enqueued, leave the mutex
unlocked. -/
theorem Write_returns_with_mutex_locked :
    (newServerSSEConnection.Write (ascii "ping") true (fun _ => none)).2 =
      .returned 0 (some .canceled) ∧
    sseAfterLateCancel.cancelled = true ∧
    sseAfterLateCancel.mxLocked = true ∧
    sseAfterLateCancel.jobChanClosed = false ∧
    sseAfterLateCancel.terminate = none ∧
    (newServerSSEConnection.cancel.Write (ascii "ping") false (fun _ => none)) =
      (newServerSSEConnection.cancel, .returned 0 (some .canceled)) ∧
    newServerSSEConnection.cancel.mxLocked = false ∧
    (newServerSSEConnection.Write (ascii "ping") false (fun _ => some ⟨9, none⟩)) =
      (newServerSSEConnection, .returned 9 none) := by
  decide

end Signalr
